import Mathlib

/-!
Verification of the treematcher pattern-matching engine (treematcher.py,
symbols.py) against its specification.

The embedding models:
* the target tree interface (node identity, children, attribute lookup,
  subtree iteration) that the engine requires from its external tree
  collaborator, together with the attribute cache built over it;
* the `PatternSyntax` helper predicates;
* `TreePattern.is_local_match`, `TreePattern.match`,
  `TreePattern.cascade_match` and `TreePattern.find_match`.

Machine integers do not occur; Python lists are Lean lists; Python sets of
(pairwise distinct) node objects are modelled as lists of nodes, and Python
sets of strings as deduplicated lists / finsets.  Fallible Python code is
modelled in `Except`; the mutable `syntax.cache` binding is threaded as
explicit state.
-/

/- A target tree node: object identity (`nid`, distinct per node, modelling
Python object identity), the `name`, `species` and optional `evoltype`
attributes, and the ordered children.  `TForest` is the list of children
(a mutual inductive so that structural recursion over the tree is
available). -/
mutual
inductive TTree where
  | node (nid : Nat) (nm sp : String) (ev : Option String) (ch : TForest)
inductive TForest where
  | fnil
  | fcons (hd : TTree) (tl : TForest)
end

def TTree.tid : TTree → Nat
  | .node i _ _ _ _ => i

def TTree.tname : TTree → String
  | .node _ n _ _ _ => n

def TTree.tspecies : TTree → String
  | .node _ _ s _ _ => s

def TTree.tevol : TTree → Option String
  | .node _ _ _ e _ => e

def TTree.tchildren : TTree → TForest
  | .node _ _ _ _ cs => cs

def TForest.toList : TForest → List TTree
  | .fnil => []
  | .fcons h t => h :: t.toList

def TForest.flen : TForest → Nat
  | .fnil => 0
  | .fcons _ t => t.flen + 1

/-- `node.is_leaf()`: a node with no children. -/
def TTree.is_leaf : TTree → Bool
  | .node _ _ _ _ .fnil => true
  | .node _ _ _ _ (.fcons _ _) => false

/- Modelled from the spec: the external tree collaborator's preorder
`node.traverse("preorder")` — a stable iteration over all nodes of the
subtree, the node itself first, then the subtrees of the children in
order. -/
mutual
def traverse : TTree → List TTree
  | .node i n s e cs => .node i n s e cs :: traverseF cs
def traverseF : TForest → List TTree
  | .fnil => []
  | .fcons c rest => traverse c ++ traverseF rest
end

/-- Modelled from the spec: `node.iter_leaves()` / `node.get_leaves()` of the
tree collaborator — the leaves of the subtree in traversal order. -/
def iterLeaves (t : TTree) : List TTree :=
  (traverse t).filter TTree.is_leaf

/-- Modelled from the spec: `node.get_descendants()` — every node of the
subtree except the node itself (the tail of the preorder traversal). -/
def descendantsList (t : TTree) : List TTree :=
  traverseF t.tchildren

/- Modelled from the spec: the per-node content recorded by
`tree.get_cached_content()` (leaves-only form): the set of leaf
descendants of each node, assembled bottom-up by merging the children's
sets (a leaf contributes itself).  Python's set of pairwise-distinct node
objects is modelled as the list of those nodes. -/
mutual
def cachedLeaves : TTree → List TTree
  | .node i n s e .fnil => [.node i n s e .fnil]
  | .node i n s e (.fcons c rest) => cachedLeavesF (.fcons c rest)
def cachedLeavesF : TForest → List TTree
  | .fnil => []
  | .fcons c rest => cachedLeaves c ++ cachedLeavesF rest
end

/- Modelled from the spec: the per-node content recorded by
`tree.get_cached_content(leaves_only=False)`: the set of all nodes of the
subtree, the node itself included (children's sets merged, then the node
added). -/
mutual
def cachedAllNodes : TTree → List TTree
  | .node i n s e cs => cachedAllNodesF cs ++ [.node i n s e cs]
def cachedAllNodesF : TForest → List TTree
  | .fnil => []
  | .fcons c rest => cachedAllNodes c ++ cachedAllNodesF rest
end

/-- The interface shared by `TreePatternCache` and `_FakeCache`: node
enumerations for `get_cached_attr` (leaves-only and all-nodes), plus
`get_leaves` and `get_descendants`. -/
structure CacheLike where
  enumLeaves : TTree → List TTree
  enumAll : TTree → List TTree
  get_leaves : TTree → List TTree
  get_descendants : TTree → List TTree

/-- `get_cached_attr(attr_name, node, leaves_only)` of either cache class:
`[getattr(n, attr_name, None) for n in NODES]` where `NODES` is the
leaves-only or all-nodes enumeration of the cache. -/
def get_cached_attr (c : CacheLike) (f : TTree → α) (node : TTree)
    (leaves_only : Bool) : List α :=
  ((if leaves_only then c.enumLeaves else c.enumAll) node).map f

/-- `TreePatternCache`: serves the contents precomputed by
`tree.get_cached_content` (`leaves_cache` / `all_node_cache`); the lookup
`cache[node]` at a node of the tree yields that node's recorded
content. -/
def TreePatternCacheC : CacheLike :=
  { enumLeaves := cachedLeaves
    enumAll := cachedAllNodes
    get_leaves := cachedLeaves
    get_descendants := cachedAllNodes }

/-- `_FakeCache`: the cache emulator that falls back to direct tree
traversal (`node.iter_leaves()` / `node.traverse()` / `node.get_leaves()` /
`node.get_descendants()`). -/
def FakeCacheC : CacheLike :=
  { enumLeaves := iterLeaves
    enumAll := traverse
    get_leaves := iterLeaves
    get_descendants := descendantsList }

namespace PatternSyntax

/-- `PatternSyntax.__get_cache`: the bound cache if one is set, otherwise the
fake cache. -/
def cache_or_fake (c : Option CacheLike) : CacheLike :=
  c.getD FakeCacheC

/-- Python's `sorted` on a list of strings. -/
def sortStr (l : List String) : List String :=
  List.insertionSort (· ≤ ·) l

/-- `PatternSyntax.leaves`. -/
def leaves (c : Option CacheLike) (target_node : TTree) : List String :=
  sortStr (get_cached_attr (cache_or_fake c) TTree.tname target_node true)

/-- `PatternSyntax.descendants`. -/
def descendants (c : Option CacheLike) (target_node : TTree) : List String :=
  sortStr (get_cached_attr (cache_or_fake c) TTree.tname target_node false)

/-- `PatternSyntax.species`: the Python set of the species values of the
leaf descendants. -/
def species (c : Option CacheLike) (target_node : TTree) : Finset String :=
  (get_cached_attr (cache_or_fake c) TTree.tspecies target_node true).toFinset

/-- `PatternSyntax.contains_species`: `species_names` is turned into a set;
`found` counts the leaf descendants whose species lies in that set, and the
result is `found == len(species_names)`.  The collection form of the
argument is modelled (the single-string form wraps the string into a
one-element set). -/
def contains_species (c : Option CacheLike) (target_node : TTree)
    (species_names : List String) : Bool :=
  (get_cached_attr (cache_or_fake c) TTree.tspecies target_node true).countP
      (species_names.dedup.contains ·)
    == species_names.dedup.length

/-- `PatternSyntax.contains_leaves`: same counting policy on the `name`
attribute. -/
def contains_leaves (c : Option CacheLike) (target_node : TTree)
    (node_names : List String) : Bool :=
  (get_cached_attr (cache_or_fake c) TTree.tname target_node true).countP
      (node_names.dedup.contains ·)
    == node_names.dedup.length

/-- `PatternSyntax.n_species`: `len(set(species of leaf descendants))`. -/
def n_species (c : Option CacheLike) (target_node : TTree) : Nat :=
  (get_cached_attr (cache_or_fake c) TTree.tspecies target_node true).toFinset.card

/-- `PatternSyntax.n_leaves`: `len(cache.get_leaves(node))`. -/
def n_leaves (c : Option CacheLike) (target_node : TTree) : Nat :=
  ((cache_or_fake c).get_leaves target_node).length

/-- `PatternSyntax.n_duplications`: `events.count('D')` over the `evoltype`
attribute of all nodes of the subtree (`None` where the attribute is
absent). -/
def n_duplications (c : Option CacheLike) (target_node : TTree) : Nat :=
  (get_cached_attr (cache_or_fake c) TTree.tevol target_node false).count (some "D")

/-- `PatternSyntax.n_speciations`: `events.count('S')`. -/
def n_speciations (c : Option CacheLike) (target_node : TTree) : Nat :=
  (get_cached_attr (cache_or_fake c) TTree.tevol target_node false).count (some "S")

end PatternSyntax

/-- Concrete tree with two leaves of equal name and equal species (distinct
node identities), exhibiting the counting policy of `contains_leaves` /
`contains_species`. -/
def tDupAA : TTree :=
  .node 0 "r" "R" none
    (.fcons (.node 1 "A" "X" none .fnil)
      (.fcons (.node 2 "A" "X" none .fnil) .fnil))

/-- Concrete tree with pairwise distinct leaf names and species. -/
def tDistinctAB : TTree :=
  .node 0 "r" "R" none
    (.fcons (.node 1 "A" "X" none .fnil)
      (.fcons (.node 2 "B" "Y" none .fnil) .fnil))

/-- Python values produced by the modelled fragment of the constraint
expression sublanguage. -/
inductive Value where
  | bool (b : Bool)
  | str (s : String)
  | int (n : Int)
deriving DecidableEq

/-- Python truthiness of a result value (used by `if status:` and by the
`bool()` coercions of the callers). -/
def Value.truthy : Value → Bool
  | .bool b => b
  | .str s => !(s == "")
  | .int n => !(n == 0)

/-- The Python exceptions the engine can raise or pass through. -/
inductive PyErr where
  | nameError      -- `NameError` (unresolved identifier)
  | valueError     -- `ValueError` (as re-raised by `is_local_match`)
  | indexError     -- bare `IndexError` from list indexing in `cascade_match`
  | typeError      -- `TypeError` (`x in None`, `bool & str`, ...)
  | recursionLimit -- Python's recursion limit
deriving DecidableEq

/-- A syntax scope: the named helper callables visible to `eval` (the
`constraint_scope` dict built from `dir(syntax)`), looked up by name.  Each
helper is modelled as a function of the bound target node.  (The helpers of
§4.2 consult the transient cache binding; by `c8_cache_equivalence` the
binding does not change their values, so scope entries are modelled as
cache-independent functions.) -/
def Scope : Type := String → Option (TTree → Value)

/-- The scope with no bindings. -/
def emptyScope : Scope := fun _ => none

/-- The modelled fragment of constraint expressions containing the
self-reference symbol `@`:
* `targetName` is `@.name` (an attribute access evaluating to a string);
* `helperCall f` is `f(@)` for a helper name `f` resolved in the scope
  (an unresolved `f` raises `NameError`, as in Python `eval`). -/
inductive PExpr where
  | targetName
  | helperCall (f : String)
deriving DecidableEq

/-- Python `eval` of a modelled constraint expression under a scope, with the
self-reference bound to the target node. -/
def evalExpr (e : PExpr) (sc : Scope) (t : TTree) : Except PyErr Value :=
  match e with
  | .targetName => .ok (.str t.tname)
  | .helperCall f =>
    match sc f with
    | none => .error .nameError
    | some fn => .ok (fn t)

/-- The label of a pattern node, partitioning `self.name` exactly as the
branch ladder of `is_local_match` does:
* `emptyL`: `self.name` is empty (falsy) — constraint `''`;
* `expr e`: `'@' in self.name` — the name with `@` replaced by the bound
  target reference, an expression of the modelled fragment;
* `star`: `self.name == '*'` (and no `@` in it);
* `literal s`: anything else — the name is matched verbatim, via the
  constraint `__target_node.name == "s"` (faithful for names that contain
  no quote character, which would escape the interpolation). -/
inductive PLabel where
  | emptyL
  | star
  | literal (s : String)
  | expr (e : PExpr)

def PLabel.isStar : PLabel → Bool
  | .star => true
  | _ => false

/- A pattern node: its label (parsed from `self.name`), its own syntax
scope (`self.syntax` — non-root nodes may carry a poorer scope than the
root, which is what the root-scope retry of `is_local_match` compensates
for), and its ordered children. -/
mutual
inductive Pattern where
  | pnode (lbl : PLabel) (sc : Scope) (ch : PatForest)
inductive PatForest where
  | pnil
  | pcons (hd : Pattern) (tl : PatForest)
end

def Pattern.plabel : Pattern → PLabel
  | .pnode l _ _ => l

def Pattern.pscope : Pattern → Scope
  | .pnode _ s _ => s

def Pattern.pchildren : Pattern → PatForest
  | .pnode _ _ cs => cs

def PatForest.toList : PatForest → List Pattern
  | .pnil => []
  | .pcons h t => h :: t.toList

def PatForest.flen : PatForest → Nat
  | .pnil => 0
  | .pcons _ t => t.flen + 1

/- The number of nodes of a pattern tree (at least 1). -/
mutual
def patternSize : Pattern → Nat
  | .pnode _ _ cs => patternSizeF cs + 1
def patternSizeF : PatForest → Nat
  | .pnil => 0
  | .pcons c rest => patternSize c + patternSizeF rest
end

/-- `TreePattern.is_local_match(target_node, cache)` (the `cache` parameter
is unused by the source body and therefore not modelled).  Builds the
constraint from the node label, evaluates it under the node's own scope,
and on `NameError` retries under the root pattern node's scope
(`self.get_tree_root().syntax`), re-raising `NameError` only when the retry
fails too.  `ValueError` from the evaluation is re-raised (the non-boolean
result check itself is commented out in the source); `AttributeError` /
`IndexError` from the evaluation are re-raised as `ValueError`. -/
def is_local_match (rootScope : Scope) (p : Pattern) (t : TTree) :
    Except PyErr Value :=
  match p.plabel with
  | .emptyL => .ok (.bool true)
  | .star => .ok (.bool true)
  | .literal s => .ok (.bool (t.tname == s))
  | .expr e =>
    match evalExpr e p.pscope t with
    | .ok st => .ok st
    | .error .valueError => .error .valueError
    | .error .indexError => .error .valueError
    | .error .nameError =>
      (match evalExpr e rootScope t with
       | .ok st => .ok st
       | .error .nameError => .error .nameError
       | .error err => .error err)
    | .error err => .error err

/-- The matching computations thread the transient `syntax.cache` binding as
state (`none` = unbound) and raise Python exceptions in `Except`. -/
abbrev MatchM (α : Type) := StateT (Option CacheLike) (Except PyErr) α

/-- Python `l[i]` for a nonnegative index (an out-of-range index raises
`IndexError`). -/
def listIdx (l : List α) (i : Nat) : Except PyErr α :=
  match l[i]? with
  | some x => .ok x
  | none => .error .indexError

/-- Python `sub_status &= st` for a boolean `sub_status`: conjunction when
`st` is a boolean, `TypeError` otherwise (`bool & str` raises; the bitwise
`bool & int` case is not exercised by any modelled constraint). -/
def andPy (b : Bool) (v : Value) : Except PyErr Bool :=
  match v with
  | .bool b2 => .ok (b && b2)
  | _ => .error .typeError

/-- `itertools.permutations(node.children)`: all orderings of the target
node's children.  (The enumeration order of `List.permutations'` differs
from itertools' lexicographic order; every property proved below is
insensitive to the enumeration order.) -/
def permsPy (l : List TTree) : List (List TTree) :=
  l.permutations'

/-- The inner loop `for i in range(len(self.children)):` of
`TreePattern.match`: runs every pattern child against the candidate child
at the same position (no early exit — Python evaluates all iterations) and
accumulates `sub_status &= st`.  Positions beyond the pattern's child count
are ignored. -/
def matchInner (rec : Pattern → TTree → MatchM Value) :
    List Pattern → List TTree → Bool → MatchM Bool
  | [], _, acc => pure acc
  | _ :: _, [], acc => pure acc
  | pc :: ps, tc :: ts, acc => do
    let st ← rec pc tc
    let acc' ← StateT.lift (andPy acc st)
    matchInner rec ps ts acc'

/-- The candidate loop `for candidate in permutations(node.children):` of
`TreePattern.match`: `status` is overwritten by each candidate's
`sub_status` and the loop breaks on the first truthy `status`; with no
candidates `status` keeps its current value `v`. -/
def matchCandLoop (rec : Pattern → TTree → MatchM Value) (ps : List Pattern)
    (v : Value) : List (List TTree) → MatchM Value
  | [] => pure v
  | cand :: rest => do
    let sub ← matchInner rec ps cand true
    if sub then pure (.bool true)
    else matchCandLoop rec ps (.bool sub) rest

/-- `TreePattern.match(node, cache)`, on explicit recursion fuel (the code's
recursion terminates because each recursive call descends to a pattern
child; the fuel models Python's recursion limit and is instantiated below
with a bound that the pattern depth never reaches).  Sets
`self.syntax.cache = cache` on entry and never clears it; on a truthy local
status with pattern children it requires the target to have at least as
many children and searches the permutations, otherwise `status` is
`False`. -/
def matchGo : Nat → Scope → Option CacheLike → Pattern → TTree → MatchM Value
  | 0, _, _, _, _ => StateT.lift (.error .recursionLimit)
  | fuel + 1, rs, cache, p, t => do
    set cache
    let status ← StateT.lift (is_local_match rs p t)
    if !status.truthy then pure status
    else if p.pchildren.flen = 0 then pure status
    else if p.pchildren.flen ≤ t.tchildren.flen then
      matchCandLoop (matchGo fuel rs cache) p.pchildren.toList
        status (permsPy t.tchildren.toList)
    else pure (.bool false)

/-- `TreePattern.match` with the fuel bound `patternSize + 1` (strictly more
than the depth of any chain of pattern-descending recursive calls). -/
def matchTP (rs : Scope) (cache : Option CacheLike) (p : Pattern) (t : TTree) :
    MatchM Value :=
  matchGo (patternSize p + 1) rs cache p t

/-- The inner loop `for i in range(n0):` shared by both child-matching
branches of `TreePattern.cascade_match`.  The tuple assignment
`st, self, sub_sub_nodes = self.children[i].cascade_match(...)` rebinds
`self`, so the pattern child for position `i` is read off the pattern node
returned by the previous iteration (`IndexError` if it has too few
children); `getT i` selects the target argument (`candidate[i]` in the
arity-sufficient branch, the unchanged target node in the wildcard
shortfall branch). -/
def cascInner (rec : Pattern → TTree → MatchM (Value × Pattern × List TTree))
    (getT : Nat → Except PyErr TTree) :
    List Nat → Bool → Pattern → List TTree →
    MatchM (Bool × Pattern × List TTree)
  | [], sub, q, ns => pure (sub, q, ns)
  | i :: is, sub, q, ns => do
    let pc ← StateT.lift (listIdx q.pchildren.toList i)
    let tc ← StateT.lift (getT i)
    let (st, q', nodes) ← rec pc tc
    let sub' ← StateT.lift (andPy sub st)
    cascInner rec getT is sub' q' (ns ++ nodes)

/-- The candidate loop of `TreePattern.cascade_match`: per candidate,
`range(len(self.children))` is re-evaluated with the current (possibly
rebound) pattern node; `matched_nodes` accumulates the sub-nodes of every
candidate tried; the loop breaks on the first truthy `sub_status` and
otherwise leaves the last candidate's (falsy) `sub_status` as the
status. -/
def cascCandLoop (rec : Pattern → TTree → MatchM (Value × Pattern × List TTree)) :
    List (List TTree) → Pattern → List TTree →
    MatchM (Bool × Pattern × List TTree)
  | [], q, acc => pure (false, q, acc)
  | cand :: rest, q, acc => do
    let r ← cascInner rec (listIdx cand) (List.range q.pchildren.flen) true q []
    if r.1 then pure (true, r.2.1, acc ++ r.2.2)
    else cascCandLoop rec rest r.2.1 (acc ++ r.2.2)

/-- `TreePattern.cascade_match(node, cache)` on explicit recursion fuel.
Returns `(status, self, matched_nodes)` where `self` is the pattern node
left in the receiver variable after the tuple rebinding.  A locally
matching non-wildcard node contributes the target node to `matched_nodes`.
On arity shortfall, a wildcard node runs its own children against the
*same* target node (`range(len(self.children))` evaluated once, with the
original node); a non-wildcard node fails.  `self.syntax.cache = None` runs
before every normal return. -/
def cascadeGo : Nat → Scope → Option CacheLike → Pattern → TTree →
    MatchM (Value × Pattern × List TTree)
  | 0, _, _, _, _ => StateT.lift (.error .recursionLimit)
  | fuel + 1, rs, cache, p, t => do
    set cache
    let status ← StateT.lift (is_local_match rs p t)
    if !status.truthy then do
      set (none : Option CacheLike)
      pure (status, p, [])
    else do
      let m0 : List TTree := if p.plabel.isStar then [] else [t]
      if p.pchildren.flen = 0 then do
        set (none : Option CacheLike)
        pure (status, p, m0)
      else if p.pchildren.flen ≤ t.tchildren.flen then do
        let r ← cascCandLoop (cascadeGo fuel rs cache)
          (permsPy t.tchildren.toList) p []
        set (none : Option CacheLike)
        pure (.bool r.1, r.2.1, m0 ++ r.2.2)
      else if p.plabel.isStar then do
        let r ← cascInner (cascadeGo fuel rs cache) (fun _ => .ok t)
          (List.range p.pchildren.flen) true p []
        set (none : Option CacheLike)
        pure (.bool r.1, r.2.1, m0 ++ r.2.2)
      else do
        set (none : Option CacheLike)
        pure (.bool false, p, m0)

/-- `TreePattern.cascade_match` with the fuel bound `patternSize + 1`. -/
def cascadeMatchTP (rs : Scope) (cache : Option CacheLike) (p : Pattern)
    (t : TTree) : MatchM (Value × Pattern × List TTree) :=
  cascadeGo (patternSize p + 1) rs cache p t

/-- A pattern leaf with the literal constraint `"A"`. -/
def pLitA : Pattern := .pnode (.literal "A") emptyScope .pnil

/-- The wildcard pattern `*` with the single child `A`. -/
def pStarA : Pattern := .pnode .star emptyScope (.pcons pLitA .pnil)

/-- A childless target node named `A`. -/
def tLeafA : TTree := .node 0 "A" "" none .fnil

/-- A pattern leaf whose constraint is the expression `@.name` (evaluating
to a string, not a boolean). -/
def pExprName : Pattern := .pnode (.expr .targetName) emptyScope .pnil

/-- A root scope binding the helper name `foo` (to a constantly-true
helper); used to exercise the root-scope retry. -/
def rootScopeFoo : Scope :=
  fun g => if g = "foo" then some (fun _ => .bool true) else none

/-- A pattern leaf calling the helper `foo(@)`, with an own scope that does
not bind `foo`. -/
def pFoo : Pattern := .pnode (.expr (.helperCall "foo")) emptyScope .pnil

/-- The result value of a stateful run, discarding the final cache-binding
state (the exception or the produced value). -/
def runVal (x : MatchM α) (s : Option CacheLike) : Except PyErr α :=
  (x.run s).map Prod.fst

/-- The plain-mode loop of `TreePattern.find_match`: iterate the target-tree
nodes (supplied as the list produced by the caller-chosen traversal), run
`match` at each node, yield the node on a truthy status, and `break` as
soon as `maxhits is not None and num_hits >= maxhits` — a check made after
every node, matching or not.  The yields are collected in order; an
escaping exception discards the generator's output in this model. -/
def findMatchPlainGo (rs : Scope) (cache : Option CacheLike) (p : Pattern) :
    List TTree → Nat → Option Nat → MatchM (List TTree)
  | [], _, _ => pure []
  | n :: rest, hits, maxhits => do
    let v ← matchTP rs cache p n
    let hits' := if v.truthy then hits + 1 else hits
    let out : List TTree := if v.truthy then [n] else []
    match maxhits with
    | some m =>
      if m ≤ hits' then pure out
      else do
        let tl ← findMatchPlainGo rs cache p rest hits' (some m)
        pure (out ++ tl)
    | none => do
      let tl ← findMatchPlainGo rs cache p rest hits' none
      pure (out ++ tl)

/-- `TreePattern.find_match` in plain mode (`match_type` not `"cascade"`),
started with `num_hits = 0`. -/
def find_match_plain (rs : Scope) (cache : Option CacheLike) (p : Pattern)
    (nodes : List TTree) (maxhits : Option Nat) : MatchM (List TTree) :=
  findMatchPlainGo rs cache p nodes 0 maxhits

/- Modelled from the spec: `node.detach()` of the tree collaborator, as the
effect on the containing tree value — the subtree rooted at the node with
the given identity is removed from its parent's child list.  Node
identities are unique (they model Python object identity), so at most one
subtree is removed. -/
mutual
def detachT : TTree → Nat → TTree
  | .node i n s e cs, tid => .node i n s e (detachF cs tid)
def detachF : TForest → Nat → TForest
  | .fnil, _ => .fnil
  | .fcons c rest, tid =>
    if c.tid = tid then detachF rest tid
    else .fcons (detachT c tid) (detachF rest tid)
end

/-- Modelled from the spec: `x in tree` of the tree collaborator — identity
membership of the node among the tree's descendants (the tree's own root is
not a member). -/
def containsNode (t : TTree) (x : TTree) : Bool :=
  (descendantsList t).any (fun n => n.tid == x.tid)

/-- `len(tree.get_descendants())`. -/
def descCount (t : TTree) : Nat :=
  (descendantsList t).length

/-- The inner `for node in tree.traverse("preorder"):` loop of cascade-mode
`find_match`.  Per node: run `cascade_match` with the current pattern node;
record the first node of a nonempty `matched_nodes` as the anchor
(`matched_root_node`) if none is recorded yet; adopt the returned pattern
node as the current one; on a truthy status, yield the anchor when the last
matched node lies inside it (`matched_nodes[-1] in matched_root_node` —
`IndexError` on an empty list, `TypeError` when the anchor is `None`) and
`break`; otherwise `break` without a yield once `num_hits` has reached the
pattern length.  Returns (yields, anchor, hit count). -/
def cascadeForLoop (rs : Scope) (cache : Option CacheLike) (plen : Nat) :
    List TTree → Pattern → Option TTree → Nat →
    MatchM (List TTree × Option TTree × Nat)
  | [], _, mrn, hits => pure ([], mrn, hits)
  | n :: rest, q, mrn, hits => do
    let r ← cascadeMatchTP rs cache q n
    let mrn' : Option TTree :=
      match mrn, r.2.2 with
      | none, [] => none
      | none, x :: _ => some x
      | some m, _ => some m
    if r.1.truthy then do
      let last ← StateT.lift (m := Except PyErr)
        (match r.2.2.getLast? with
         | some x => .ok x
         | none => .error .indexError)
      match mrn' with
      | none => StateT.lift (.error .typeError)
      | some m =>
        if containsNode m last then pure ([m], some m, hits + 1)
        else pure ([], some m, hits + 1)
    else if plen ≤ hits then pure ([], mrn', hits)
    else cascadeForLoop rs cache plen rest r.2.1 mrn' hits

/-- The bounded `while` loop of cascade-mode `find_match`: the guard is
`pattern_length <= len(tree.get_descendants()) and count <= 5`; with no
anchor recorded, any round after the first breaks; a recorded anchor is
detached from the tree and forgotten before rescanning; `count` increments
every round.  The `fuelW` argument only makes the recursion structural —
the `count <= 5` guard stops the loop before fuel `7` can run out. -/
def cascadeWhileLoop (rs : Scope) (cache : Option CacheLike) (p : Pattern)
    (plen : Nat) :
    Nat → Nat → TTree → Option TTree → Nat → List TTree → MatchM (List TTree)
  | 0, _, _, _, _, acc => pure acc
  | fuelW + 1, count, tree, mrn, hits, acc =>
    if plen ≤ descCount tree ∧ count ≤ 5 then
      if mrn.isNone ∧ count ≠ 0 then pure acc
      else
        let tree₁ := match mrn with
          | none => tree
          | some m => detachT tree m.tid
        do
          let r ← cascadeForLoop rs cache plen (traverse tree₁) p none hits
          cascadeWhileLoop rs cache p plen fuelW (count + 1) tree₁ r.2.1 r.2.2
            (acc ++ r.1)
    else pure acc

/-- `TreePattern.find_match` in cascade mode: `pattern_length` is the
pattern's descendant count, `count` starts at `0`, no anchor is recorded
and no hits have occurred. -/
def find_match_cascade (rs : Scope) (cache : Option CacheLike) (p : Pattern)
    (tree : TTree) : MatchM (List TTree) :=
  cascadeWhileLoop rs cache p (patternSize p - 1) 7 0 tree none 0 []

/-- A pattern leaf with the literal constraint `"X"` (matched by no node of
`tDistinctAB`). -/
def pLitX : Pattern := .pnode (.literal "X") emptyScope .pnil

/- ------------------------------------------------------------------ -/
/- Theorems                                                            -/
/- ------------------------------------------------------------------ -/

theorem ebind_ok (x : α) (f : α → Except PyErr β) : (Except.ok x >>= f) = f x := rfl

theorem ebind_error (e : PyErr) (f : α → Except PyErr β) :
    ((Except.error e : Except PyErr α) >>= f) = .error e := rfl

theorem epure_eq (x : α) : (pure x : Except PyErr α) = .ok x := rfl

theorem flen_zero_iff (cs : PatForest) : cs.flen = 0 ↔ cs = .pnil := by
  cases cs with
  | pnil => simp [PatForest.flen]
  | pcons c rest => simp [PatForest.flen]

mutual
theorem cachedLeaves_eq_filterT (t : TTree) :
    cachedLeaves t = (traverse t).filter TTree.is_leaf := by
  match t with
  | .node i n s e .fnil => rfl
  | .node i n s e (.fcons c rest) =>
    show cachedLeavesF (.fcons c rest)
        = (TTree.node i n s e (.fcons c rest) :: traverseF (.fcons c rest)).filter TTree.is_leaf
    rw [List.filter_cons]
    show cachedLeavesF (.fcons c rest) = (traverseF (.fcons c rest)).filter TTree.is_leaf
    exact cachedLeaves_eq_filterF (.fcons c rest)
theorem cachedLeaves_eq_filterF (f : TForest) :
    cachedLeavesF f = (traverseF f).filter TTree.is_leaf := by
  match f with
  | .fnil => rfl
  | .fcons c rest =>
    show cachedLeaves c ++ cachedLeavesF rest
        = (traverse c ++ traverseF rest).filter TTree.is_leaf
    rw [List.filter_append, cachedLeaves_eq_filterT c, cachedLeaves_eq_filterF rest]
end

theorem cachedLeaves_eq_iterLeavesT (t : TTree) :
    cachedLeaves t = iterLeaves t :=
  cachedLeaves_eq_filterT t

mutual
theorem cachedAllNodes_perm_traverseT (t : TTree) :
    List.Perm (cachedAllNodes t) (traverse t) := by
  match t with
  | .node i n s e cs =>
    exact (List.perm_append_singleton _ _).trans
      (List.Perm.cons _ (cachedAllNodes_perm_traverseF cs))
theorem cachedAllNodes_perm_traverseF (f : TForest) :
    List.Perm (cachedAllNodesF f) (traverseF f) := by
  match f with
  | .fnil => exact List.Perm.refl _
  | .fcons c rest =>
    exact List.Perm.append (cachedAllNodes_perm_traverseT c)
      (cachedAllNodes_perm_traverseF rest)
end

theorem sortStr_eq_of_perm {l₁ l₂ : List String} (h : List.Perm l₁ l₂) :
    PatternSyntax.sortStr l₁ = PatternSyntax.sortStr l₂ := by
  apply List.eq_of_perm_of_sorted (r := (· ≤ ·))
  · exact ((List.perm_insertionSort _ l₁).trans h).trans
      (List.perm_insertionSort _ l₂).symm
  · exact List.sorted_insertionSort _ _
  · exact List.sorted_insertionSort _ _

theorem dedup_toFinset_eq (S : List String) : S.dedup.toFinset = S.toFinset := by
  ext x
  simp [List.mem_dedup]

theorem dedup_length_eq_card (S : List String) :
    S.dedup.length = S.toFinset.card := by
  rw [← List.toFinset_card_of_nodup (List.nodup_dedup S), dedup_toFinset_eq]

/-- The counting policy `found == len(set)` over a duplicate-free value list
is exactly coverage of the requested set. -/
theorem count_coverage (l S : List String) (hl : l.Nodup) :
    ((l.countP (S.dedup.contains ·) == S.dedup.length) = true ↔ ∀ s ∈ S, s ∈ l) := by
  rw [beq_iff_eq]
  have hpred : (fun x => S.dedup.contains x) = (fun x => decide (x ∈ S.dedup)) := by
    funext x
    simp [List.contains_iff_exists_mem_beq]
  rw [hpred, List.countP_eq_length_filter]
  have hfilt : (l.filter (fun x => decide (x ∈ S.dedup))).toFinset
      = l.toFinset ∩ S.toFinset := by
    rw [List.toFinset_filter]
    ext x
    simp [List.mem_dedup, Finset.mem_filter, Finset.mem_inter, List.mem_toFinset]
  have hnf : (l.filter (fun x => decide (x ∈ S.dedup))).Nodup := List.Nodup.filter _ hl
  have hlen : (l.filter (fun x => decide (x ∈ S.dedup))).length
      = (l.toFinset ∩ S.toFinset).card := by
    rw [← hfilt, List.toFinset_card_of_nodup hnf]
  rw [hlen, dedup_length_eq_card]
  constructor
  · intro hcard s hs
    have hsub : l.toFinset ∩ S.toFinset = S.toFinset := by
      apply Finset.eq_of_subset_of_card_le Finset.inter_subset_right
      omega
    have hss : S.toFinset ⊆ l.toFinset := Finset.inter_eq_right.mp hsub
    exact List.mem_toFinset.mp (hss (List.mem_toFinset.mpr hs))
  · intro hcov
    have hsub : S.toFinset ⊆ l.toFinset := by
      intro s hs
      exact List.mem_toFinset.mpr (hcov s (List.mem_toFinset.mp hs))
    rw [Finset.inter_eq_right.mpr hsub]

/-- Claim C2 fails on the code: a target whose two leaves share the name
`"A"` (and species `"X"`) covers the requested set `{"A"}` (resp. `{"X"}`),
yet `contains_leaves` (resp. `contains_species`) returns `False`, because
two leaves are counted against a one-element set. -/
theorem c2_contains_coverage_counterexample :
    PatternSyntax.contains_leaves none tDupAA ["A"] = false
      ∧ "A" ∈ (iterLeaves tDupAA).map TTree.tname
      ∧ PatternSyntax.contains_species none tDupAA ["X"] = false
      ∧ "X" ∈ (iterLeaves tDupAA).map TTree.tspecies := by
  decide

/-- Claim C2 (amended): `contains_leaves(T, S)` (resp. `contains_species`)
returns true iff the number of leaf descendants whose name (resp. species)
lies in S equals the number of distinct elements of S; when the leaf names
(resp. species) of T are pairwise distinct this is exactly full coverage of
S, which is the form proved here. -/
theorem c2_contains_coverage_amended (t : TTree) (S : List String)
    (hn : ((iterLeaves t).map TTree.tname).Nodup)
    (hs : ((iterLeaves t).map TTree.tspecies).Nodup) :
    (PatternSyntax.contains_leaves none t S = true
      ↔ ∀ s ∈ S, s ∈ (iterLeaves t).map TTree.tname)
    ∧ (PatternSyntax.contains_species none t S = true
      ↔ ∀ s ∈ S, s ∈ (iterLeaves t).map TTree.tspecies) := by
  constructor
  · exact count_coverage _ S hn
  · exact count_coverage _ S hs

/-- Witness for C2 (amended) at a concrete duplicate-free tree. -/
theorem c2_contains_coverage_witness :
    PatternSyntax.contains_leaves none tDistinctAB ["A", "B"] = true
      ∧ PatternSyntax.contains_species none tDistinctAB ["X"] = true := by
  refine ⟨?_, ?_⟩
  · exact (c2_contains_coverage_amended tDistinctAB ["A", "B"] (by decide) (by decide)).1.mpr
      (by decide)
  · exact (c2_contains_coverage_amended tDistinctAB ["X"] (by decide) (by decide)).2.mpr
      (by decide)

/-- Claim C8: every helper predicate computes the same result through a bound
`TreePatternCache` as through the uncached direct-traversal fallback, for
every node of the target tree and every requested name collection. -/
theorem c8_cache_equivalence (t : TTree) (names : List String) :
    PatternSyntax.leaves (some TreePatternCacheC) t = PatternSyntax.leaves none t
    ∧ PatternSyntax.descendants (some TreePatternCacheC) t
        = PatternSyntax.descendants none t
    ∧ PatternSyntax.species (some TreePatternCacheC) t = PatternSyntax.species none t
    ∧ PatternSyntax.contains_species (some TreePatternCacheC) t names
        = PatternSyntax.contains_species none t names
    ∧ PatternSyntax.contains_leaves (some TreePatternCacheC) t names
        = PatternSyntax.contains_leaves none t names
    ∧ PatternSyntax.n_species (some TreePatternCacheC) t
        = PatternSyntax.n_species none t
    ∧ PatternSyntax.n_leaves (some TreePatternCacheC) t
        = PatternSyntax.n_leaves none t
    ∧ PatternSyntax.n_duplications (some TreePatternCacheC) t
        = PatternSyntax.n_duplications none t
    ∧ PatternSyntax.n_speciations (some TreePatternCacheC) t
        = PatternSyntax.n_speciations none t := by
  have hleq : cachedLeaves t = iterLeaves t := cachedLeaves_eq_iterLeavesT t
  have hperm : List.Perm (cachedAllNodes t) (traverse t) :=
    cachedAllNodes_perm_traverseT t
  refine ⟨?_, ?_, ?_, ?_, ?_, ?_, ?_, ?_, ?_⟩
  · show PatternSyntax.sortStr ((cachedLeaves t).map TTree.tname)
        = PatternSyntax.sortStr ((iterLeaves t).map TTree.tname)
    rw [hleq]
  · exact sortStr_eq_of_perm (hperm.map TTree.tname)
  · show ((cachedLeaves t).map TTree.tspecies).toFinset
        = ((iterLeaves t).map TTree.tspecies).toFinset
    rw [hleq]
  · show (((cachedLeaves t).map TTree.tspecies).countP _ == _)
        = (((iterLeaves t).map TTree.tspecies).countP _ == _)
    rw [hleq]
  · show (((cachedLeaves t).map TTree.tname).countP _ == _)
        = (((iterLeaves t).map TTree.tname).countP _ == _)
    rw [hleq]
  · show ((cachedLeaves t).map TTree.tspecies).toFinset.card
        = ((iterLeaves t).map TTree.tspecies).toFinset.card
    rw [hleq]
  · show (cachedLeaves t).length = (iterLeaves t).length
    rw [hleq]
  · show ((cachedAllNodes t).map TTree.tevol).countP (· == some "D")
        = ((traverse t).map TTree.tevol).countP (· == some "D")
    exact List.Perm.countP_eq _ (hperm.map TTree.tevol)
  · show ((cachedAllNodes t).map TTree.tevol).countP (· == some "S")
        = ((traverse t).map TTree.tevol).countP (· == some "S")
    exact List.Perm.countP_eq _ (hperm.map TTree.tevol)

/-- Claim C10: with an empty required collection, `contains_species` and
`contains_leaves` return `True` on every target node under every cache
binding (the coverage count is vacuously `0 == 0`). -/
theorem c10_contains_empty_collection (c : Option CacheLike) (t : TTree) :
    PatternSyntax.contains_species c t [] = true
      ∧ PatternSyntax.contains_leaves c t [] = true := by
  constructor
  · simp [PatternSyntax.contains_species, List.countP_eq_length_filter]
  · simp [PatternSyntax.contains_leaves, List.countP_eq_length_filter]

/-- Every successful run of `matchInner` started in state `cache` under a
recursion whose successful runs end in state `cache` also ends in state
`cache`. -/
theorem matchInner_state_eq (cache : Option CacheLike)
    (rec : Pattern → TTree → MatchM Value)
    (hrec : ∀ pc tc s r s₁, (rec pc tc).run s = .ok (r, s₁) → s₁ = cache) :
    ∀ ps ts acc r s', (matchInner rec ps ts acc).run cache = .ok (r, s') → s' = cache := by
  intro ps
  induction ps with
  | nil =>
    intro ts acc r s' h
    simp only [matchInner, StateT.run_pure, epure_eq, Except.ok.injEq] at h
    exact (Prod.mk.injEq _ _ _ _ ▸ h).2.symm ▸ rfl
  | cons pc ps ih =>
    intro ts acc r s' h
    cases ts with
    | nil =>
      simp only [matchInner, StateT.run_pure, epure_eq, Except.ok.injEq] at h
      exact (Prod.mk.injEq _ _ _ _ ▸ h).2.symm ▸ rfl
    | cons tc ts =>
      simp only [matchInner, StateT.run_bind, StateT.run_lift] at h
      cases hr : (rec pc tc).run cache with
      | error e => rw [hr] at h; simp only [ebind_error] at h; exact absurd h (by simp)
      | ok p1 =>
        rw [hr] at h
        obtain ⟨st, s1⟩ := p1
        have hs1 : s1 = cache := hrec pc tc cache st s1 hr
        subst hs1
        simp only [ebind_ok] at h
        cases ha : andPy acc st with
        | error e =>
          rw [ha] at h; simp only [ebind_error] at h; exact absurd h (by simp)
        | ok acc2 =>
          rw [ha] at h
          simp only [ebind_ok, epure_eq] at h
          exact ih ts acc2 r s' h

/-- Same state invariant for the candidate loop of `match`. -/
theorem matchCandLoop_state_eq (cache : Option CacheLike)
    (rec : Pattern → TTree → MatchM Value)
    (hrec : ∀ pc tc s r s₁, (rec pc tc).run s = .ok (r, s₁) → s₁ = cache) :
    ∀ cands ps v r s', (matchCandLoop rec ps v cands).run cache = .ok (r, s') → s' = cache := by
  intro cands
  induction cands with
  | nil =>
    intro ps v r s' h
    simp only [matchCandLoop, StateT.run_pure, epure_eq, Except.ok.injEq] at h
    exact (Prod.mk.injEq _ _ _ _ ▸ h).2.symm ▸ rfl
  | cons cand rest ih =>
    intro ps v r s' h
    simp only [matchCandLoop, StateT.run_bind] at h
    cases hI : (matchInner rec ps cand true).run cache with
    | error e => rw [hI] at h; simp only [ebind_error] at h; exact absurd h (by simp)
    | ok p1 =>
      rw [hI] at h
      obtain ⟨sub, s1⟩ := p1
      have hs1 : s1 = cache := matchInner_state_eq cache rec hrec ps cand true sub s1 hI
      subst hs1
      simp only [ebind_ok] at h
      cases sub with
      | true =>
        rw [if_pos rfl] at h
        simp only [StateT.run_pure, epure_eq, Except.ok.injEq] at h
        exact (Prod.mk.injEq _ _ _ _ ▸ h).2.symm ▸ rfl
      | false =>
        rw [if_neg (by simp)] at h
        exact ih ps (.bool false) r s' h

/-- `TreePattern.match` sets `syntax.cache` to its `cache` argument and never
clears it: every completed (non-raising) run leaves the binding equal to
`cache`, whatever the binding held before. -/
theorem matchGo_state_eq (cache : Option CacheLike) :
    ∀ fuel rs p t s₀ v s',
      (matchGo fuel rs cache p t).run s₀ = .ok (v, s') → s' = cache := by
  intro fuel
  induction fuel with
  | zero =>
    intro rs p t s₀ v s' h
    simp only [matchGo, StateT.run_lift, ebind_error] at h
    exact absurd h (by simp)
  | succ fuel ih =>
    intro rs p t s₀ v s' h
    simp only [matchGo, StateT.run_bind, StateT.run_set, StateT.run_lift, epure_eq,
      ebind_ok] at h
    cases hlm : is_local_match rs p t with
    | error e => rw [hlm] at h; simp only [ebind_error] at h; exact absurd h (by simp)
    | ok status =>
      rw [hlm] at h
      simp only [ebind_ok, epure_eq] at h
      cases hts : status.truthy with
      | false =>
        rw [hts] at h
        rw [if_pos (by simp)] at h
        simp only [StateT.run_pure, epure_eq, Except.ok.injEq] at h
        exact (Prod.mk.injEq _ _ _ _ ▸ h).2.symm ▸ rfl
      | true =>
        rw [hts] at h
        rw [if_neg (by simp)] at h
        by_cases h0 : p.pchildren.flen = 0
        · rw [if_pos h0] at h
          simp only [StateT.run_pure, epure_eq, Except.ok.injEq] at h
          exact (Prod.mk.injEq _ _ _ _ ▸ h).2.symm ▸ rfl
        · rw [if_neg h0] at h
          by_cases hle : p.pchildren.flen ≤ t.tchildren.flen
          · rw [if_pos hle] at h
            exact matchCandLoop_state_eq cache (matchGo fuel rs cache)
              (fun pc tc s r s₁ hh => ih rs pc tc s r s₁ hh) _ _ _ _ _ h
          · rw [if_neg hle] at h
            simp only [StateT.run_pure, epure_eq, Except.ok.injEq] at h
            exact (Prod.mk.injEq _ _ _ _ ▸ h).2.symm ▸ rfl

/-- Every completed (non-raising) run of `cascade_match` ends with
`syntax.cache = None`: each normal return is preceded by the clearing
assignment. -/
theorem cascadeGo_state_none (cache : Option CacheLike) :
    ∀ fuel rs p t s₀ r s',
      (cascadeGo fuel rs cache p t).run s₀ = .ok (r, s') → s' = none := by
  intro fuel rs p t s₀ r s' h
  cases fuel with
  | zero =>
    simp only [cascadeGo, StateT.run_lift, ebind_error] at h
    exact absurd h (by simp)
  | succ fuel =>
    simp only [cascadeGo, StateT.run_bind, StateT.run_set, StateT.run_lift, epure_eq,
      ebind_ok] at h
    cases hlm : is_local_match rs p t with
    | error e => rw [hlm] at h; simp only [ebind_error] at h; exact absurd h (by simp)
    | ok status =>
      rw [hlm] at h
      simp only [ebind_ok, epure_eq] at h
      cases hts : status.truthy with
      | false =>
        rw [hts] at h
        rw [if_pos (by simp)] at h
        simp only [StateT.run_bind, StateT.run_set, StateT.run_pure, epure_eq, ebind_ok,
          Except.ok.injEq] at h
        exact (Prod.mk.injEq _ _ _ _ ▸ h).2.symm ▸ rfl
      | true =>
        rw [hts] at h
        rw [if_neg (by simp)] at h
        by_cases h0 : p.pchildren.flen = 0
        · rw [if_pos h0] at h
          simp only [StateT.run_bind, StateT.run_set, StateT.run_pure, epure_eq, ebind_ok,
            Except.ok.injEq] at h
          exact (Prod.mk.injEq _ _ _ _ ▸ h).2.symm ▸ rfl
        · rw [if_neg h0] at h
          by_cases hle : p.pchildren.flen ≤ t.tchildren.flen
          · rw [if_pos hle] at h
            simp only [StateT.run_bind] at h
            cases hC : (cascCandLoop (cascadeGo fuel rs cache) (permsPy t.tchildren.toList) p []).run cache with
            | error e => rw [hC] at h; simp only [ebind_error] at h; exact absurd h (by simp)
            | ok p1 =>
              rw [hC] at h
              simp only [ebind_ok, StateT.run_bind, StateT.run_set, StateT.run_pure, epure_eq,
                Except.ok.injEq] at h
              exact (Prod.mk.injEq _ _ _ _ ▸ h).2.symm ▸ rfl
          · rw [if_neg hle] at h
            by_cases hst : p.plabel.isStar = true
            · rw [if_pos hst] at h
              simp only [StateT.run_bind] at h
              cases hC : (cascInner (cascadeGo fuel rs cache) (fun _ => .ok t)
                  (List.range p.pchildren.flen) true p []).run cache with
              | error e => rw [hC] at h; simp only [ebind_error] at h; exact absurd h (by simp)
              | ok p1 =>
                rw [hC] at h
                simp only [ebind_ok, StateT.run_bind, StateT.run_set, StateT.run_pure, epure_eq,
                  Except.ok.injEq] at h
                exact (Prod.mk.injEq _ _ _ _ ▸ h).2.symm ▸ rfl
            · rw [if_neg hst] at h
              simp only [StateT.run_bind, StateT.run_set, StateT.run_pure, epure_eq, ebind_ok,
                Except.ok.injEq] at h
              exact (Prod.mk.injEq _ _ _ _ ▸ h).2.symm ▸ rfl

/-- Claim C1 fails on the code for `match`: on the wildcard pattern `*` with
the single child `A` and a childless target named `A`, recursing the
wildcard's child against the same target node succeeds (as `cascade_match`
indeed shows), but `match` returns `False` outright on the child-count
shortfall instead of recursing. -/
theorem c1_wildcard_transparency_counterexample :
    (matchTP emptyScope none pStarA tLeafA).run none = .ok (.bool false, none)
      ∧ (cascadeMatchTP emptyScope none pStarA tLeafA).run none
          = .ok ((.bool true, pLitA, [tLeafA]), none) :=
  ⟨rfl, rfl⟩

/-- Claim C1 (amended): only `cascade_match` treats a wildcard as
transparent under child-count shortfall, recursing the wildcard's children
against the *same* target node; `match` fails outright (returns `False`)
even when the pattern node is the wildcard marker. -/
theorem c1_wildcard_transparency_amended (rs : Scope) (cache s₀ : Option CacheLike)
    (sc : Scope) (cs : PatForest) (t : TTree) (hcs : cs ≠ .pnil)
    (hlt : t.tchildren.flen < cs.flen) :
    (matchTP rs cache (.pnode .star sc cs) t).run s₀ = .ok (.bool false, cache)
      ∧ (cascadeMatchTP rs cache (.pnode .star sc cs) t).run s₀
        = ((do
            set cache
            let r ← cascInner (cascadeGo (patternSize (Pattern.pnode .star sc cs)) rs cache)
              (fun _ => .ok t) (List.range cs.flen) true (Pattern.pnode .star sc cs) []
            set (none : Option CacheLike)
            pure (Value.bool r.1, r.2.1, r.2.2) : MatchM (Value × Pattern × List TTree))).run s₀ := by
  have h0 : ¬ (Pattern.pnode .star sc cs).pchildren.flen = 0 := by
    simp only [Pattern.pchildren]
    rw [flen_zero_iff]
    exact hcs
  have hle : ¬ (Pattern.pnode .star sc cs).pchildren.flen ≤ t.tchildren.flen := by
    simp only [Pattern.pchildren]
    omega
  constructor
  · simp only [matchTP, matchGo, is_local_match, Pattern.plabel, StateT.run_bind,
      StateT.run_set, StateT.run_lift, epure_eq, ebind_ok, Value.truthy,
      Bool.not_true, Bool.false_eq_true, if_false]
    rw [if_neg h0, if_neg hle]
    simp only [StateT.run_pure, epure_eq]
  · simp only [cascadeMatchTP, cascadeGo, is_local_match, Pattern.plabel, PLabel.isStar,
      StateT.run_bind, StateT.run_set, StateT.run_lift, epure_eq, ebind_ok, Value.truthy,
      Bool.not_true, Bool.false_eq_true, if_false, if_true, Pattern.pchildren,
      List.nil_append]
    rw [if_neg (by simpa [Pattern.pchildren] using h0),
      if_neg (by simpa [Pattern.pchildren] using hle)]
    simp only [StateT.run_bind, StateT.run_set, StateT.run_pure, epure_eq, ebind_ok,
      List.nil_append, Pattern.pchildren]

/-- Witness for C1 (amended) at the wildcard `*` with one child against a
childless target. -/
theorem c1_wildcard_transparency_witness :
    (PatForest.pcons pLitA .pnil ≠ .pnil)
      ∧ (matchTP emptyScope none (.pnode .star emptyScope (.pcons pLitA .pnil)) tLeafA).run none
          = .ok (.bool false, none) :=
  ⟨fun h => PatForest.noConfusion h,
   (c1_wildcard_transparency_amended emptyScope none none emptyScope
      (.pcons pLitA .pnil) tLeafA (fun h => PatForest.noConfusion h) (by decide)).1⟩

/-- Claim C3 fails on the code: after a completed top-level `match` call
with a bound cache, the Syntax Scope's cache binding still holds that cache
(it is never reset to unbound). -/
theorem c3_cache_binding_counterexample :
    (matchTP emptyScope (some TreePatternCacheC) pLitA tLeafA).run none
      = .ok (.bool true, some TreePatternCacheC) :=
  rfl

/-- Claim C3 (amended): `match` leaves the cache binding equal to its
`cache` argument on every completed call (it never clears the binding),
while `cascade_match` resets the binding to unbound on every completed call
(at every recursion level, not only the top one). -/
theorem c3_cache_binding_amended :
    (∀ fuel rs cache p t s₀ v s',
        (matchGo fuel rs cache p t).run s₀ = .ok (v, s') → s' = cache)
      ∧ (∀ fuel rs cache p t s₀ r s',
        (cascadeGo fuel rs cache p t).run s₀ = .ok (r, s') → s' = none) :=
  ⟨fun fuel rs cache p t s₀ v s' h => matchGo_state_eq cache fuel rs p t s₀ v s' h,
   fun fuel rs cache p t s₀ r s' h => cascadeGo_state_none cache fuel rs p t s₀ r s' h⟩

/-- Witness for C3 (amended) on concrete completed runs of `match` and
`cascade_match`. -/
theorem c3_cache_binding_witness :
    ((matchGo 2 emptyScope (some TreePatternCacheC) pLitA tLeafA).run none
        = .ok (.bool true, some TreePatternCacheC))
      ∧ ((some TreePatternCacheC : Option CacheLike) = some TreePatternCacheC)
      ∧ ((cascadeGo 2 emptyScope (some TreePatternCacheC) pLitA tLeafA).run none
        = .ok ((.bool true, pLitA, [tLeafA]), none))
      ∧ ((none : Option CacheLike) = none) :=
  ⟨rfl,
   c3_cache_binding_amended.1 2 emptyScope (some TreePatternCacheC) pLitA tLeafA none
     (.bool true) (some TreePatternCacheC) rfl,
   rfl,
   c3_cache_binding_amended.2 2 emptyScope (some TreePatternCacheC) pLitA tLeafA none
     (.bool true, pLitA, [tLeafA]) none rfl⟩

/-- Claim C4 fails on the code: the constraint `@.name` evaluates to the
string `"A"` on the target node named `A`, and `is_local_match` returns
that non-boolean value as the match status instead of raising (the
non-boolean check is commented out in the source). -/
theorem c4_nonbool_counterexample :
    is_local_match emptyScope pExprName tLeafA = .ok (.str "A") :=
  rfl

/-- Claim C4 (amended): whatever value a constraint expression successfully
evaluates to — boolean or not — `is_local_match` returns it unchanged as
the match status; `ValueError` is raised only when the evaluation itself
raises one. -/
theorem c4_nonbool_amended (rs sc : Scope) (cs : PatForest) (e : PExpr)
    (t : TTree) (v : Value) (h : evalExpr e sc t = .ok v) :
    is_local_match rs (.pnode (.expr e) sc cs) t = .ok v := by
  simp only [is_local_match, Pattern.plabel, Pattern.pscope]
  rw [h]

/-- Witness for C4 (amended) at the expression `@.name`. -/
theorem c4_nonbool_witness :
    evalExpr .targetName emptyScope tLeafA = .ok (.str "A")
      ∧ is_local_match emptyScope (.pnode (.expr .targetName) emptyScope .pnil) tLeafA
          = .ok (.str "A") :=
  ⟨rfl, c4_nonbool_amended emptyScope emptyScope .pnil .targetName tLeafA (.str "A") rfl⟩

/-- Claim C5: when evaluation under the node's own scope raises `NameError`,
`is_local_match` retries under the root pattern node's scope; a successful
retry's result is returned, and `NameError` is raised precisely when the
retry fails to resolve the name as well. -/
theorem c5_root_scope_retry (rs sc : Scope) (cs : PatForest) (e : PExpr) (t : TTree)
    (h1 : evalExpr e sc t = .error .nameError) :
    (∀ v, evalExpr e rs t = .ok v →
        is_local_match rs (.pnode (.expr e) sc cs) t = .ok v)
      ∧ (is_local_match rs (.pnode (.expr e) sc cs) t = .error .nameError
        ↔ evalExpr e rs t = .error .nameError) := by
  constructor
  · intro v hv
    simp only [is_local_match, Pattern.plabel, Pattern.pscope]
    rw [h1, hv]
  · simp only [is_local_match, Pattern.plabel, Pattern.pscope]
    rw [h1]
    cases hr : evalExpr e rs t with
    | ok v => simp
    | error err => cases err <;> simp

/-- Witness for C5 at the helper call `foo(@)`: unresolved in the node's own
scope, bound in the root scope. -/
theorem c5_root_scope_retry_witness :
    evalExpr (.helperCall "foo") emptyScope tLeafA = .error .nameError
      ∧ is_local_match rootScopeFoo (.pnode (.expr (.helperCall "foo")) emptyScope .pnil) tLeafA
          = .ok (.bool true) :=
  ⟨rfl,
   (c5_root_scope_retry rootScopeFoo emptyScope .pnil (.helperCall "foo") tLeafA rfl).1
     (.bool true) rfl⟩

/-- Claim C6: a pattern node whose nonempty expression contains no
self-reference symbol and is not the wildcard marker matches a target node
exactly when the target's name equals the expression text verbatim.  (The
quote-free hypothesis records where the embedding of the interpolated
constraint `__target_node.name == "..."` is faithful.) -/
theorem c6_literal_exact_name (rs sc : Scope) (cs : PatForest) (s : String)
    (t : TTree) (hq : '\"' ∉ s.data) :
    is_local_match rs (.pnode (.literal s) sc cs) t = .ok (.bool true) ↔ t.tname = s := by
  simp only [is_local_match, Pattern.plabel]
  constructor
  · intro h
    have h2 : (t.tname == s) = true := by
      have := (Except.ok.injEq _ _).mp h
      exact (Value.bool.injEq _ _).mp this
    exact beq_iff_eq.mp h2
  · intro h
    subst h
    simp

/-- Witness for C6 at the literal constraint `"A"`. -/
theorem c6_literal_exact_name_witness :
    ('\"' ∉ "A".data)
      ∧ is_local_match emptyScope (.pnode (.literal "A") emptyScope .pnil) tLeafA
          = .ok (.bool true) :=
  ⟨by decide,
   (c6_literal_exact_name emptyScope emptyScope .pnil "A" tLeafA (by decide)).mpr rfl⟩

/-- The cascade call at a locally non-matching node returns immediately:
falsy status, unchanged pattern node, no matched nodes, cleared binding. -/
theorem cascadeTP_nomatch (rs : Scope) (cache : Option CacheLike) (p : Pattern)
    (n : TTree) (h : is_local_match rs p n = .ok (.bool false)) :
    ∀ s, (cascadeMatchTP rs cache p n).run s = .ok ((.bool false, p, []), none) := by
  intro s
  simp only [cascadeMatchTP, cascadeGo, StateT.run_bind, StateT.run_set, StateT.run_lift,
    epure_eq, ebind_ok]
  rw [h]
  simp only [ebind_ok, Value.truthy, Bool.not_false, if_pos, ite_true, StateT.run_bind,
    StateT.run_set, StateT.run_pure, epure_eq, ebind_ok]

/-- The cascade for-loop over locally non-matching nodes yields nothing,
records no anchor and scores no hit. -/
theorem cascadeFor_nomatch (rs : Scope) (cache : Option CacheLike) (plen : Nat)
    (p : Pattern) :
    ∀ (nodes : List TTree), (∀ n ∈ nodes, is_local_match rs p n = .ok (.bool false)) →
      ∀ hits s, ∃ s', (cascadeForLoop rs cache plen nodes p none hits).run s
        = .ok (([], none, hits), s') := by
  intro nodes
  induction nodes with
  | nil =>
    intro h hits s
    exact ⟨s, rfl⟩
  | cons n rest ih =>
    intro h hits s
    have hn : is_local_match rs p n = .ok (.bool false) := h n (by simp)
    have hrest : ∀ m ∈ rest, is_local_match rs p m = .ok (.bool false) :=
      fun m hm => h m (by simp [hm])
    simp only [cascadeForLoop, StateT.run_bind]
    rw [cascadeTP_nomatch rs cache p n hn s]
    simp only [ebind_ok, Value.truthy, Bool.false_eq_true, if_neg, ite_false]
    by_cases hle : plen ≤ hits
    · rw [if_pos hle]
      exact ⟨none, rfl⟩
    · rw [if_neg hle]
      exact ih hrest hits none

/-- Claim C9: when no node of the target tree satisfies the pattern's root
constraint, cascade-mode `find_match` completes — after at most one full
scan, stopped by the `count` guard on the second round — with an empty
result sequence.  (Termination in general is built into the embedding: the
while loop recurses on decreasing fuel that the `count <= 5` guard keeps
from running out.) -/
theorem c9_cascade_termination (rs : Scope) (cache s₀ : Option CacheLike)
    (p : Pattern) (tree : TTree)
    (h : ∀ n ∈ traverse tree, is_local_match rs p n = .ok (.bool false)) :
    runVal (find_match_cascade rs cache p tree) s₀ = .ok [] := by
  unfold find_match_cascade
  by_cases hg : patternSize p - 1 ≤ descCount tree
  · show runVal (cascadeWhileLoop rs cache p (patternSize p - 1) (6 + 1) 0 tree none 0 []) s₀
        = .ok []
    simp only [cascadeWhileLoop]
    rw [if_pos ⟨hg, by omega⟩]
    rw [if_neg (by simp)]
    obtain ⟨s', hs'⟩ := cascadeFor_nomatch rs cache (patternSize p - 1) p (traverse tree) h 0 s₀
    simp only [runVal, StateT.run_bind]
    rw [hs']
    simp only [ebind_ok]
    show ((cascadeWhileLoop rs cache p (patternSize p - 1) (5 + 1) 1 tree none 0
        ([] ++ [])).run s').map Prod.fst = .ok []
    simp only [cascadeWhileLoop]
    rw [if_pos ⟨hg, by omega⟩]
    rw [if_pos (by simp)]
    rfl
  · show runVal (cascadeWhileLoop rs cache p (patternSize p - 1) (6 + 1) 0 tree none 0 []) s₀
        = .ok []
    simp only [cascadeWhileLoop]
    rw [if_neg (by intro hc; exact hg hc.1)]
    rfl

/-- Witness for C9: the literal pattern `X` never matches locally in
`tDistinctAB`, and cascade-mode `find_match` returns the empty sequence. -/
theorem c9_cascade_termination_witness :
    (∀ n ∈ traverse tDistinctAB, is_local_match emptyScope pLitX n = .ok (.bool false))
      ∧ runVal (find_match_cascade emptyScope none pLitX tDistinctAB) none = .ok [] := by
  have h : ∀ n ∈ traverse tDistinctAB, is_local_match emptyScope pLitX n = .ok (.bool false) := by
    intro n hn
    have htr : traverse tDistinctAB
        = [tDistinctAB, .node 1 "A" "X" none .fnil, .node 2 "B" "Y" none .fnil] := rfl
    rw [htr] at hn
    simp only [List.mem_cons, List.not_mem_nil, or_false] at hn
    rcases hn with rfl | rfl | rfl <;> rfl
  exact ⟨h, c9_cascade_termination emptyScope none none pLitX tDistinctAB h⟩

/-- A successful sub-run followed by a pure append keeps the appended
prefix. -/
theorem runVal_bind_pure_append (x : MatchM (List TTree)) (out : List TTree)
    (s : Option CacheLike) (v : List TTree) (hv : runVal x s = .ok v) :
    runVal (do
      let tl ← x
      pure (out ++ tl) : MatchM (List TTree)) s = .ok (out ++ v) := by
  cases hrun : x.run s with
  | error e =>
    simp only [runVal, hrun, Except.map] at hv
    exact Except.noConfusion hv
  | ok pr =>
    simp only [runVal, hrun, Except.map, Except.ok.injEq] at hv
    simp only [runVal, StateT.run_bind, hrun, ebind_ok, StateT.run_pure, epure_eq,
      Except.map]
    rw [hv]

/-- With a bounded hit cap, the plain-mode loop emits the matching nodes in
order until the cap is reached. -/
theorem plainGo_some (rs : Scope) (cache : Option CacheLike) (p : Pattern)
    (f : TTree → Bool) :
    ∀ (nodes : List TTree),
      (∀ n ∈ nodes, ∀ s, (matchTP rs cache p n).run s = .ok (.bool (f n), cache)) →
      ∀ hits m s₀, hits < m →
        runVal (findMatchPlainGo rs cache p nodes hits (some m)) s₀
          = .ok ((nodes.filter f).take (m - hits)) := by
  intro nodes
  induction nodes with
  | nil =>
    intro hf hits m s₀ hlt
    simp [runVal, findMatchPlainGo, StateT.run_pure, epure_eq, Except.map, List.take_nil]
  | cons n rest ih =>
    intro hf hits m s₀ hlt
    have hn := hf n (by simp)
    have hrest : ∀ x ∈ rest, ∀ s, (matchTP rs cache p x).run s = .ok (.bool (f x), cache) :=
      fun x hx => hf x (by simp [hx])
    simp only [findMatchPlainGo, runVal, StateT.run_bind]
    rw [hn s₀]
    simp only [ebind_ok]
    cases hfn : f n with
    | true =>
      simp only [hfn, Value.truthy, if_true]
      by_cases hm : m ≤ hits + 1
      · rw [if_pos hm]
        have hm1 : m - hits = 1 := by omega
        simp [StateT.run_pure, epure_eq, Except.map, List.filter_cons, hfn, hm1]
      · rw [if_neg hm]
        have ihr := ih hrest (hits + 1) m cache (by omega)
        have happ := runVal_bind_pure_append
          (findMatchPlainGo rs cache p rest (hits + 1) (some m)) [n] cache _ ihr
        simp only [runVal] at happ
        rw [happ]
        have hms : m - hits = (m - (hits + 1)) + 1 := by omega
        simp [List.filter_cons, hfn, hms, List.take_succ_cons]
    | false =>
      simp only [hfn, Value.truthy, Bool.false_eq_true, if_false]
      have hnm : ¬ m ≤ hits := by omega
      rw [if_neg hnm]
      have ihr := ih hrest hits m cache hlt
      have happ := runVal_bind_pure_append
        (findMatchPlainGo rs cache p rest hits (some m)) [] cache _ ihr
      simp only [runVal] at happ
      rw [happ]
      simp [List.filter_cons, hfn]

/-- With no hit cap, the plain-mode loop emits every matching node. -/
theorem plainGo_none (rs : Scope) (cache : Option CacheLike) (p : Pattern)
    (f : TTree → Bool) :
    ∀ (nodes : List TTree),
      (∀ n ∈ nodes, ∀ s, (matchTP rs cache p n).run s = .ok (.bool (f n), cache)) →
      ∀ hits s₀,
        runVal (findMatchPlainGo rs cache p nodes hits none) s₀
          = .ok (nodes.filter f) := by
  intro nodes
  induction nodes with
  | nil =>
    intro hf hits s₀
    simp [runVal, findMatchPlainGo, StateT.run_pure, epure_eq, Except.map]
  | cons n rest ih =>
    intro hf hits s₀
    have hn := hf n (by simp)
    have hrest : ∀ x ∈ rest, ∀ s, (matchTP rs cache p x).run s = .ok (.bool (f x), cache) :=
      fun x hx => hf x (by simp [hx])
    simp only [findMatchPlainGo, runVal, StateT.run_bind]
    rw [hn s₀]
    simp only [ebind_ok]
    cases hfn : f n with
    | true =>
      simp only [hfn, Value.truthy, if_true]
      have ihr := ih hrest (hits + 1) cache
      have happ := runVal_bind_pure_append
        (findMatchPlainGo rs cache p rest (hits + 1) none) [n] cache _ ihr
      simp only [runVal, StateT.run_bind] at happ
      rw [happ]
      simp [List.filter_cons, hfn]
    | false =>
      simp only [hfn, Value.truthy, Bool.false_eq_true, if_false]
      have ihr := ih hrest hits cache
      have happ := runVal_bind_pure_append
        (findMatchPlainGo rs cache p rest hits none) [] cache _ ihr
      simp only [runVal, StateT.run_bind] at happ
      rw [happ]
      simp [List.filter_cons, hfn]

/-- Claim C7 fails on the code at `maxhits=0`: the break check runs only
after a node has been processed, so the first traversed node is still
tested and yielded when it matches, although the hit count (0) had already
reached the cap before traversal began. -/
theorem c7_plain_maxhits_counterexample :
    runVal (find_match_plain emptyScope none pLitA [tLeafA] (some 0)) none
      = .ok [tLeafA] :=
  rfl

/-- Claim C7 (amended): in plain mode, for every cap `maxhits >= 1`,
`find_match` yields exactly the first `maxhits` matching nodes of the
traversal (in order, stopping at the cap), and with `maxhits=None` it
yields every matching node; with `maxhits=0` the first node is still
tested and yielded if it matches. -/
theorem c7_plain_maxhits_amended (rs : Scope) (cache : Option CacheLike)
    (p : Pattern) (f : TTree → Bool) (nodes : List TTree)
    (hf : ∀ n ∈ nodes, ∀ s, (matchTP rs cache p n).run s = .ok (.bool (f n), cache)) :
    (∀ m s₀, 1 ≤ m →
        runVal (find_match_plain rs cache p nodes (some m)) s₀
          = .ok ((nodes.filter f).take m))
      ∧ (∀ s₀, runVal (find_match_plain rs cache p nodes none) s₀
          = .ok (nodes.filter f)) := by
  constructor
  · intro m s₀ hm
    have hres := plainGo_some rs cache p f nodes hf 0 m s₀ (by omega)
    simpa [find_match_plain] using hres
  · intro s₀
    exact plainGo_none rs cache p f nodes hf 0 s₀

/-- Witness for C7 (amended) on a single matching node with `maxhits=1`. -/
theorem c7_plain_maxhits_witness :
    (∀ n ∈ [tLeafA], ∀ s, (matchTP emptyScope none pLitA n).run s
        = .ok (.bool ((fun _ => true) n), none))
      ∧ runVal (find_match_plain emptyScope none pLitA [tLeafA] (some 1)) none
          = .ok [tLeafA] := by
  have hf : ∀ n ∈ [tLeafA], ∀ s, (matchTP emptyScope none pLitA n).run s
      = .ok (.bool ((fun _ => true) n), none) := by
    intro n hn s
    rcases List.mem_singleton.mp hn with rfl
    rfl
  refine ⟨hf, ?_⟩
  have hres := (c7_plain_maxhits_amended emptyScope none pLitA (fun _ => true)
    [tLeafA] hf).1 1 none (by omega)
  simpa using hres
